import Mathlib

/-!
Verification of the maturity-scoring / dependency-graph engine of the
PaymentsDiagnosticToolkit repository.

The Python sources are shallowly embedded as follows.

* `root_cause_analysis.py`: the static table `UPSTREAM_DEPENDENCIES` becomes
  the association list `upstreamDependencies`.  `find_root_causes` is a pure
  bounded traversal and is embedded directly.  `trace_upstream_path` is NOT
  pure: `get_immediate_upstream_dependencies` returns the list object stored
  in the global dict, and `upstream_processes.extend(next_level)` mutates that
  global list in place while a `for` loop may still be iterating it.  It is
  therefore embedded as a fuelled interpreter (`traceAux`/`traceLoop`) that
  threads the dictionary state and re-reads the iterated list on every loop
  step, exactly as a CPython list iterator does.  `list(set xs)` is modelled
  as first-occurrence deduplication (`pydedup`); every property proved about
  results is order-independent, so the unspecified CPython set order is
  immaterial.

* `business_outcomes_mapper.py` (outcome aggregation) and the benchmark gap
  call sites of `components.py` are embedded over exact rationals `ℚ`; the
  facts proved about them (membership, ordering, sign, and disequalities that
  hold with wide margins) are insensitive to the float/exact distinction.

* The stage/overall scoring of `components.py`, whose specification claims
  concern IEEE-754 drift, is embedded with an exact model of binary64
  round-to-nearest-even arithmetic: a float is represented by its value
  scaled by `2 ^ 80` (all values reached by the program are normal doubles
  with exponent at least `-28`, so the scaling is lossless), and `fadd` /
  `fdiv` round exactly as the hardware does.
-/

/-! ### Generic association-list and list helpers -/

/-- Lookup in an association list, first match wins (Python `dict` access
for the frozen literal tables used by the program). -/
def alistGet {β : Type} (l : List (String × β)) (k : String) : Option β :=
  match l with
  | [] => none
  | (k0, v) :: rest => if k0 = k then some v else alistGet rest k

/-- Key list of an association list. -/
def alistKeys {β : Type} (l : List (String × β)) : List String :=
  l.map Prod.fst

/-- Accumulator pass of `pydedup`. -/
def pydedupAux : List String → List String → List String
  | [], acc => acc.reverse
  | x :: xs, acc => if x ∈ acc then pydedupAux xs acc else pydedupAux xs (x :: acc)

/-- Model of Python `list(set xs)`: duplicates removed, first occurrence kept.
All theorems below use it only through membership. -/
def pydedup (l : List String) : List String :=
  pydedupAux l []

theorem mem_pydedupAux (l acc : List String) (x : String) :
    x ∈ pydedupAux l acc ↔ x ∈ l ∨ x ∈ acc := by
  induction l generalizing acc with
  | nil => simp [pydedupAux]
  | cons y ys ih =>
    by_cases hy : y ∈ acc
    · simp only [pydedupAux, if_pos hy, ih]
      constructor
      · rintro (h | h)
        · exact Or.inl (List.mem_cons_of_mem _ h)
        · exact Or.inr h
      · rintro (h | h)
        · rcases List.mem_cons.mp h with h | h
          · exact Or.inr (h ▸ hy)
          · exact Or.inl h
        · exact Or.inr h
    · simp only [pydedupAux, if_neg hy, ih]
      constructor
      · rintro (h | h)
        · exact Or.inl (List.mem_cons_of_mem _ h)
        · rcases List.mem_cons.mp h with h | h
          · exact Or.inl (h ▸ List.mem_cons_self _ _)
          · exact Or.inr h
      · rintro (h | h)
        · rcases List.mem_cons.mp h with h | h
          · exact Or.inr (h ▸ List.mem_cons_self _ _)
          · exact Or.inl h
        · exact Or.inr (List.mem_cons_of_mem _ h)

theorem mem_pydedup (l : List String) (x : String) :
    x ∈ pydedup l ↔ x ∈ l := by
  simp [pydedup, mem_pydedupAux]

/-! ### Static data tables (from `root_cause_analysis.py`, `business_outcomes_mapper.py`,
`business_data.py`, `data_loader.py`) -/

/-- The dictionary type threaded through the upstream tracer: the global
`UPSTREAM_DEPENDENCIES` table, whose entry values are mutated in place by
`trace_upstream_path`. -/
def PyDict : Type := List (String × List String)

instance : DecidableEq PyDict := by
  unfold PyDict
  exact inferInstance

/-- The `UPSTREAM_DEPENDENCIES` literal of `root_cause_analysis.py`, in source
order.  Note the self-dependency of "7A" and the "7A"/"7C" cycle, and the
sentinel labels of stages 11 and 12. -/
def upstreamDependencies : PyDict :=
  [("1A", ["External trigger (user / API)"]),
   ("1B", ["1A"]),
   ("1C", ["1A"]),
   ("1D", ["1C"]),
   ("2A", ["1A", "1D"]),
   ("2B", ["2A"]),
   ("2C", ["1B", "2A"]),
   ("2D", ["2A", "2C"]),
   ("3A", ["1D"]),
   ("3B", ["1D", "2C", "3A"]),
   ("3C", ["1D", "3A"]),
   ("3D", ["3A", "3C"]),
   ("4A", ["1D", "3D"]),
   ("4B", ["4A"]),
   ("4C", ["4B"]),
   ("4D", ["4C"]),
   ("5A", ["1D", "2D", "4D"]),
   ("5B", ["1D", "4D"]),
   ("5C", ["1D", "4D", "5A"]),
   ("5D", ["5A", "5C"]),
   ("6A", ["1D", "5D"]),
   ("6B", ["6A"]),
   ("6C", ["1D", "2C", "5D"]),
   ("6D", ["6A", "6B"]),
   ("7A", ["7A", "7C"]),
   ("7B", ["1D", "6D"]),
   ("7C", ["7A", "7B"]),
   ("8A", ["7D"]),
   ("8B", ["8A"]),
   ("8C", ["4B", "7B", "8A"]),
   ("8D", ["8A", "8C"]),
   ("9A", ["8D"]),
   ("9B", ["8D", "9A"]),
   ("9C", ["4D", "8D", "9A"]),
   ("9D", ["9A", "9B"]),
   ("10A", ["6D", "8D", "9A", "9B"]),
   ("10B", ["9B", "10A"]),
   ("10C", ["3D", "5D", "7B", "8D", "9A", "9B", "10A"]),
   ("10D", ["1D", "10C"]),
   ("11A", ["Events from Stages 1-10"]),
   ("11B", ["10B"]),
   ("11C", ["Aggregated Stage 1-10 data"]),
   ("11D", ["Status events Stage 1-10"]),
   ("12A", ["Logs from Stages 1-11"]),
   ("12B", ["12A"]),
   ("12C", ["1D", "5B", "5C", "9A"]),
   ("12D", ["12A", "12B"])]

/-- The `BUSINESS_OUTCOME_MAP` literal of `business_outcomes_mapper.py`. -/
def businessOutcomeMap : List (String × List String) :=
  [("Increased Customer Satisfaction",
    ["1A", "1B", "1C", "1D", "2A", "2D", "3D", "6A", "10D", "11A", "11D"]),
   ("Reduced Payment Processing Time",
    ["3A", "3B", "4A", "4B", "4C", "4D", "7A", "7B", "8A", "8B", "8D", "9B"]),
   ("Enhanced Fraud Prevention",
    ["2A", "2B", "2C", "3C", "5A", "5B", "5C", "5D", "6B", "6C", "12A", "12D"]),
   ("Improved Regulatory Compliance",
    ["2C", "3C", "5B", "5C", "9D", "12A", "12B", "12C", "12D"]),
   ("Operational Cost Reduction",
    ["1D", "3A", "3B", "4C", "7A", "7B", "7C", "7D", "10A", "10C"]),
   ("Increased Straight-Through Processing",
    ["1C", "3A", "3B", "3C", "3D", "4A", "4B", "4D", "7A", "7B", "7C", "10A"]),
   ("Better Liquidity Management",
    ["4C", "8B", "8C", "9A", "9B", "9C", "11C"]),
   ("Enhanced Data Analytics Capability",
    ["10B", "11A", "11B", "11C", "11D", "12B", "12D"])]

/-- Model of `get_business_outcomes` (the keys of the outcome map). -/
def getBusinessOutcomes : List String :=
  businessOutcomeMap.map Prod.fst

/-- The stage label of each of the 48 catalog processes, from
`load_process_details` in `business_data.py`: `(qid, stage)`.  The other
fields (names and maturity descriptions) are opaque strings the scoring
engine never inspects.  Note the stage-12 label "Audit & Compliance". -/
def processCatalog : List (String × String) :=
  [("1A", "Payment Initiation & Data Capture"),
   ("1B", "Payment Initiation & Data Capture"),
   ("1C", "Payment Initiation & Data Capture"),
   ("1D", "Payment Initiation & Data Capture"),
   ("2A", "Authentication & Identity Validation"),
   ("2B", "Authentication & Identity Validation"),
   ("2C", "Authentication & Identity Validation"),
   ("2D", "Authentication & Identity Validation"),
   ("3A", "Pre-Submission Validation"),
   ("3B", "Pre-Submission Validation"),
   ("3C", "Pre-Submission Validation"),
   ("3D", "Pre-Submission Validation"),
   ("4A", "Payment Orchestration & Routing"),
   ("4B", "Payment Orchestration & Routing"),
   ("4C", "Payment Orchestration & Routing"),
   ("4D", "Payment Orchestration & Routing"),
   ("5A", "Risk, Fraud & Compliance"),
   ("5B", "Risk, Fraud & Compliance"),
   ("5C", "Risk, Fraud & Compliance"),
   ("5D", "Risk, Fraud & Compliance"),
   ("6A", "Final Authorisation & Approval"),
   ("6B", "Final Authorisation & Approval"),
   ("6C", "Final Authorisation & Approval"),
   ("6D", "Final Authorisation & Approval"),
   ("7A", "Message Generation & Transformation"),
   ("7B", "Message Generation & Transformation"),
   ("7C", "Message Generation & Transformation"),
   ("7D", "Message Generation & Transformation"),
   ("8A", "Transmission, Clearing & ACK"),
   ("8B", "Transmission, Clearing & ACK"),
   ("8C", "Transmission, Clearing & ACK"),
   ("8D", "Transmission, Clearing & ACK"),
   ("9A", "Settlement & Funds Movement"),
   ("9B", "Settlement & Funds Movement"),
   ("9C", "Settlement & Funds Movement"),
   ("9D", "Settlement & Funds Movement"),
   ("10A", "Reconciliation & Exceptions"),
   ("10B", "Reconciliation & Exceptions"),
   ("10C", "Reconciliation & Exceptions"),
   ("10D", "Reconciliation & Exceptions"),
   ("11A", "Reporting, Analytics & Notifications"),
   ("11B", "Reporting, Analytics & Notifications"),
   ("11C", "Reporting, Analytics & Notifications"),
   ("11D", "Reporting, Analytics & Notifications"),
   ("12A", "Audit & Compliance"),
   ("12B", "Audit & Compliance"),
   ("12C", "Audit & Compliance"),
   ("12D", "Audit & Compliance")]

/-- The 48 catalog process ids, in catalog order. -/
def catalogIds : List String :=
  processCatalog.map Prod.fst

/-- The `stage_names` table of `data_loader.load_data`.  Note that
`stage_names[12]` is "Audit, Archival & Compliance" while the catalog labels
stage-12 processes "Audit & Compliance". -/
def stageNames (s : Nat) : String :=
  match s with
  | 1 => "Payment Initiation & Data Capture"
  | 2 => "Authentication & Identity Validation"
  | 3 => "Pre-Submission Validation"
  | 4 => "Payment Orchestration & Routing"
  | 5 => "Risk, Fraud & Compliance"
  | 6 => "Final Authorisation & Approval"
  | 7 => "Message Generation & Transformation"
  | 8 => "Transmission, Clearing & ACK"
  | 9 => "Settlement & Funds Movement"
  | 10 => "Reconciliation & Exceptions"
  | 11 => "Reporting, Analytics & Notifications"
  | 12 => "Audit, Archival & Compliance"
  | _ => ""

/-! ### Outcome aggregation (`business_outcomes_mapper.py`), over exact rationals -/

/-- An assessment / process-value dictionary: process id to score, absent
means unscored (`pid in dict` is `(pv pid).isSome`). -/
def ProcessValues : Type := String → Option ℚ

/-- Model of `get_processes_for_outcome`: `BUSINESS_OUTCOME_MAP.get(outcome, [])`. -/
def getProcessesForOutcome (outcome : String) : List String :=
  (alistGet businessOutcomeMap outcome).getD []

/-- Model of `calculate_outcome_score`: returns `0` for an unregistered
outcome, otherwise the sum of `process_values.get(pid, 0)` over ALL member
ids divided by the member count. -/
def calculateOutcomeScore (pv : ProcessValues) (outcome : String) : ℚ :=
  let ids := getProcessesForOutcome outcome
  if ids = [] then 0
  else ((ids.map (fun pid => (pv pid).getD 0)).sum) / ids.length

/-- The single-scored-process assessment used to separate the two candidate
outcome-score semantics: only "4C" is scored, at Leading (0.66). -/
def onlyFourC : ProcessValues :=
  fun pid => if pid = "4C" then some (66/100) else none

/-- The everywhere-unscored assessment. -/
def noScores : ProcessValues := fun _ => none

/-- Sum over the scores of the members that are present equals the sum over
all members with absent ones defaulted to `0`. -/
theorem sum_getD_eq_sum_filterMap (pv : ProcessValues) (ids : List String) :
    (ids.map (fun pid => (pv pid).getD 0)).sum = (ids.filterMap pv).sum := by
  induction ids with
  | nil => simp
  | cons x xs ih =>
    cases hx : pv x with
    | none => simpa [List.filterMap_cons, hx] using ih
    | some v => simpa [List.filterMap_cons, hx] using congrArg (v + ·) ih

/-- C1 counterexample: for the registered outcome "Better Liquidity
Management" (7 members) with only "4C" scored at 0.66,
`calculate_outcome_score` returns 0.66/7 = 33/350 — the absent members are
defaulted to 0 and kept in the denominator — not the 0.66 the claim
requires; and with zero members scored it returns the number 0, never an
`Undefined` marker (its codomain is a plain number). -/
theorem c1_counterexample :
    calculateOutcomeScore onlyFourC "Better Liquidity Management" = 33/350 ∧
    (33/350 : ℚ) ≠ 66/100 ∧
    calculateOutcomeScore noScores "Better Liquidity Management" = 0 := by
  refine ⟨?_, by norm_num, ?_⟩
  · simp +decide [calculateOutcomeScore, getProcessesForOutcome,
      businessOutcomeMap, alistGet, onlyFourC]
    norm_num
  · simp +decide [calculateOutcomeScore, getProcessesForOutcome,
      businessOutcomeMap, alistGet, noScores]

/-- C1 (amended): for every assessment and every outcome with a non-empty
member list, `calculate_outcome_score` equals the sum of the scores of the
members that are PRESENT in the assessment divided by the count of ALL
members (absent members are excluded from the numerator but kept in the
denominator); for an unregistered outcome (empty member list) it returns 0,
a number, rather than `Undefined`. -/
theorem c1_amended (pv : ProcessValues) (outcome : String) :
    (getProcessesForOutcome outcome ≠ [] →
      calculateOutcomeScore pv outcome =
        ((getProcessesForOutcome outcome).filterMap pv).sum /
          (getProcessesForOutcome outcome).length) ∧
    (getProcessesForOutcome outcome = [] → calculateOutcomeScore pv outcome = 0) := by
  constructor
  · intro h
    simp only [calculateOutcomeScore, if_neg h, sum_getD_eq_sum_filterMap]
  · intro h
    simp only [calculateOutcomeScore, if_pos h]

/-- Witness for `c1_amended` at the concrete assessment `onlyFourC` and the
registered outcome "Better Liquidity Management". -/
theorem c1_amended_witness :
    calculateOutcomeScore onlyFourC "Better Liquidity Management" =
      ((getProcessesForOutcome "Better Liquidity Management").filterMap onlyFourC).sum /
        (getProcessesForOutcome "Better Liquidity Management").length :=
  (c1_amended onlyFourC "Better Liquidity Management").1 (by decide)

/-! ### Benchmark gap call sites (`components.py`, `render_outcome_analysis`) -/

/-- Model of the line `gap = benchmark_avg - current_score_rounded`
("Gap to Benchmark" metric of the improvement tab). -/
def gapToBenchmark (benchmarkAvg currentScoreRounded : ℚ) : ℚ :=
  benchmarkAvg - currentScoreRounded

/-- Model of the line `new_gap = benchmark_avg - new_score_rounded`
("New Gap to Benchmark" metric after simulation). -/
def newGapToBenchmark (benchmarkAvg newScoreRounded : ℚ) : ℚ :=
  benchmarkAvg - newScoreRounded

/-- C3: both gap call sites of `render_outcome_analysis` compute
reference-minus-assessment, so a positive gap means the benchmark
outperforms the user; in particular gap(user 1.0, reference 2.5) = 1.5 and
gap(user 3.0, reference 2.5) = -0.5, and the simulated-gap site agrees with
the current-gap site on equal inputs. -/
theorem c3_gap_sign_consistency :
    (∀ r u : ℚ, gapToBenchmark r u = r - u) ∧
    (∀ r u : ℚ, newGapToBenchmark r u = r - u) ∧
    (∀ r u : ℚ, 0 < gapToBenchmark r u ↔ u < r) ∧
    (∀ r u : ℚ, newGapToBenchmark r u = gapToBenchmark r u) ∧
    gapToBenchmark (5/2) 1 = 3/2 ∧
    gapToBenchmark (5/2) 3 = -(1/2) := by
  refine ⟨fun r u => rfl, fun r u => rfl, fun r u => ?_, fun r u => rfl, by norm_num [gapToBenchmark], by norm_num [gapToBenchmark]⟩
  simp only [gapToBenchmark, sub_pos]

/-! ### Maturity recording (`components.py`, `render_process_assessment`) -/

/-- Model of Python `str.strip` for the space-only strings that occur in the
slider labels. -/
def pyStrip (l : List Char) : List Char :=
  (((l.dropWhile (fun c => c = ' ')).reverse).dropWhile (fun c => c = ' ')).reverse

/-- Model of `selected_maturity.split("(")[0].strip()`: the label text before
the parenthesised number. -/
def maturityLabel (opt : String) : String :=
  ⟨pyStrip (opt.data.takeWhile (fun c => c ≠ '('))⟩

/-- Model of the label-to-score mapping of `render_process_assessment`: any
unrecognised label falls through to 0.00. -/
def maturityValue (label : String) : ℚ :=
  if label = "Basic" then 0
  else if label = "Advanced" then 33/100
  else if label = "Leading" then 66/100
  else if label = "Emerging" then 1
  else 0

/-- Model of the store
`st.session_state.assessment_data[process['qid']] = maturity_value`: an
unconditional dictionary write, performed for whatever qid the process row
carries and with the value derived from the selected slider option. -/
def recordScore (assess : ProcessValues) (qid : String) (opt : String) : ProcessValues :=
  fun k => if k = qid then some (maturityValue (maturityLabel opt)) else assess k

/-- C5 counterexample: "99Z" is not in the 48-process catalog, yet recording
a score for it succeeds and adds the entry "99Z" with value 0.33 — no
`UnknownProcess` failure exists anywhere on the recording path. -/
theorem c5_counterexample :
    "99Z" ∉ catalogIds ∧
    recordScore noScores "99Z" "Advanced (2)" "99Z" = some (33/100) := by
  exact ⟨by decide, rfl⟩

/-- C5 (amended): the recording path never fails and never validates: it
stores, for any qid whatsoever (catalog member or not), the value derived
from the selected label; that value always lies in {0, 0.33, 0.66, 1.00}
(unknown labels fall through to 0), re-recording overwrites the prior value,
and entries for other ids are untouched. -/
theorem c5_amended (assess : ProcessValues) (qid opt : String) :
    recordScore assess qid opt qid = some (maturityValue (maturityLabel opt)) ∧
    (maturityValue (maturityLabel opt) = 0 ∨ maturityValue (maturityLabel opt) = 33/100 ∨
      maturityValue (maturityLabel opt) = 66/100 ∨ maturityValue (maturityLabel opt) = 1) ∧
    (∀ optPrior, recordScore (recordScore assess qid optPrior) qid opt qid =
      some (maturityValue (maturityLabel opt))) ∧
    (∀ k, k ≠ qid → recordScore assess qid opt k = assess k) := by
  refine ⟨by simp [recordScore], ?_, fun optPrior => by simp [recordScore], fun k hk => by simp [recordScore, hk]⟩
  unfold maturityValue
  split_ifs <;> simp

/-- Witness for `c5_amended`: recording "1A" at Leading over a prior Basic
entry leaves exactly the Leading value for "1A" and leaves "2B" unscored. -/
theorem c5_amended_witness :
    recordScore (recordScore noScores "1A" "Basic (1)") "1A" "Leading (3)" "1A" =
      some (maturityValue (maturityLabel "Leading (3)")) ∧
    recordScore noScores "1A" "Leading (3)" "2B" = noScores "2B" :=
  ⟨(c5_amended (recordScore noScores "1A" "Basic (1)") "1A" "Leading (3)").1,
   (c5_amended noScores "1A" "Leading (3)").2.2.2 "2B" (by decide)⟩

/-! ### Stage grouping by first id character (`root_cause_analysis.py`) -/

/-- Model of `int(pid[0]) if pid[0].isdigit() else 0` from
`create_process_journey_figure`. -/
def journeyStageId (pid : String) : Nat :=
  match pid.data with
  | [] => 0
  | c :: _ => if c.isDigit then c.toNat - '0'.toNat else 0

/-- Model of `int(process['qid'][0])` from `render_root_cause_analysis`
(raises on a non-digit first character, hence the `Option`). -/
def renderStageId (pid : String) : Option Nat :=
  match pid.data with
  | [] => none
  | c :: _ => if c.isDigit then some (c.toNat - '0'.toNat) else none

/-- The stage number encoded by the full digit prefix of a process id
(e.g. 12 for "12D"); this is the claim's notion of the stage an id belongs
to, stated over the decimal digit prefix. -/
def numericStagePrefix (pid : String) : Nat :=
  (pid.data.takeWhile Char.isDigit).foldl (fun n c => 10 * n + (c.toNat - '0'.toNat)) 0

/-- C10: the root-cause views derive a process's stage from only the first
character of its id, so every catalog process of stages 10, 11 and 12 is
grouped under stage 1 by both call sites, never under its true stage. -/
theorem c10_first_char_stage :
    ∀ pid ∈ catalogIds, 10 ≤ numericStagePrefix pid →
      journeyStageId pid = 1 ∧ renderStageId pid = some 1 ∧ numericStagePrefix pid ≠ 1 := by
  decide

/-- Witness for `c10_first_char_stage` at the catalog process "12D"
(true stage 12, grouped under stage 1). -/
theorem c10_first_char_stage_witness :
    journeyStageId "12D" = 1 ∧ renderStageId "12D" = some 1 ∧ numericStagePrefix "12D" ≠ 1 :=
  c10_first_char_stage "12D" (by decide) (by decide)

/-! ### Exact model of IEEE-754 binary64 arithmetic, scaled by 2^80

A Python float produced by the scoring engine is a normal double in
[2^-28, 2^60), hence an integer multiple of 2^-80; it is represented here by
that multiple.  `ffromFrac n d` is the double nearest to the rational n/d
(ties to even), `fadd` is float addition and `fdiv` float division, both
rounding to 53 significant bits exactly as the hardware does. -/

/-- Round-half-to-even integer division. -/
def roundHalfEvenDiv (n d : Nat) : Nat :=
  let q := n / d
  let r := n % d
  if 2 * r < d then q
  else if d < 2 * r then q + 1
  else if q % 2 = 0 then q else q + 1

/-- Largest k < 140 with 2^(k-80) ≤ n/d: the biased binary exponent of the
positive rational n/d. -/
def expBelow (n d : Nat) : Nat :=
  (List.range 140).foldl (fun acc k => if d * 2 ^ k ≤ n * 2 ^ 80 then k else acc) 0

/-- The binary64 double nearest to n/d (ties to even), scaled by 2^80. -/
def ffromFrac (n d : Nat) : Nat :=
  if n = 0 ∨ d = 0 then 0
  else
    let e := expBelow n d
    if e < 52 ∨ 132 < e then roundHalfEvenDiv (n * 2 ^ 80) d
    else roundHalfEvenDiv (n * 2 ^ (132 - e)) d * 2 ^ (e - 52)

/-- Largest k < 140 with 2^k ≤ v (for v ≥ 1). -/
def expOfScaled (v : Nat) : Nat :=
  (List.range 140).foldl (fun acc k => if 2 ^ k ≤ v then k else acc) 0

/-- Round a scaled exact value to 53 significant bits, ties to even. -/
def roundScaled (v : Nat) : Nat :=
  if v = 0 then 0
  else
    let k := expOfScaled v
    if k ≤ 52 then v
    else
      let u := 2 ^ (k - 52)
      let q := v / u
      let r := v % u
      if 2 * r < u then q * u
      else if u < 2 * r then (q + 1) * u
      else if q % 2 = 0 then q * u else (q + 1) * u

/-- Float addition (model of Python `+` on the scoring doubles). -/
def fadd (a b : Nat) : Nat := roundScaled (a + b)

/-- Float division (model of Python `/` on the scoring doubles). -/
def fdiv (a b : Nat) : Nat := ffromFrac a b

/-! ### Stage and overall scoring (`components.py` and `data_loader.py`) -/

/-- Character-list worker for `pyStartswith`. -/
def startswithAux : List Char → List Char → Bool
  | [], _ => true
  | _ :: _, [] => false
  | x :: xs, y :: ys => x == y && startswithAux xs ys

/-- Model of Python `s.startswith(p)`. -/
def pyStartswith (s p : String) : Bool :=
  startswithAux p.data s.data

/-- An assessment whose scores are doubles (scaled by 2^80). -/
def AssessmentF : Type := String → Option Nat

/-- Model of `data_loader.get_process_data_for_stage`: the catalog rows whose
stage label starts with `stage_names[stage_id]`. -/
def getProcessDataForStage (s : Nat) : List (String × String) :=
  processCatalog.filter (fun p => pyStartswith p.2 (stageNames s))

/-- Model of the per-stage score of `render_assessment_view` (lines 249-262):
the float sum of the assessment values of the stage's catalog processes that
are present in the assessment (an empty stage dictionary yields 0). -/
def stageScoreF (a : AssessmentF) (s : Nat) : Nat :=
  (((getProcessDataForStage s).map Prod.fst).filterMap a).foldl fadd 0

def stagesOneToTwelve : List Nat := [1, 2, 3, 4, 5, 6, 7, 8, 9, 10, 11, 12]

def stagesOneToEleven : List Nat := [1, 2, 3, 4, 5, 6, 7, 8, 9, 10, 11]

/-- Model of `overall_total = sum(stage_scores.values())` (line 266): the
float sum of the twelve per-stage scores. -/
def overallTotalF (a : AssessmentF) : Nat :=
  ((stagesOneToTwelve.map (stageScoreF a)).foldl fadd 0)

/-- Model of `assessment_overall_avg = overall_total / 12` (line 328), the
"Overall" value stored for the bank-comparison view (line 368). -/
def overallAvgF (a : AssessmentF) : Nat :=
  fdiv (overallTotalF a) (ffromFrac 12 1)

/-- Model of the accumulation `stage_total += maturity_value` of
`render_process_assessment` over the maturity values of the displayed
process rows. -/
def stageTotalForm (vals : List Nat) : Nat :=
  vals.foldl fadd 0

/-- The assessment scoring every catalog process at the double `v`. -/
def completeAssessmentF (v : Nat) : AssessmentF :=
  fun pid => if catalogIds.contains pid then some v else none

/-- Each maturity-level double paired with the double denoted by the decimal
literal of four times its decimal value: (0.00, 0.00), (0.33, 1.32),
(0.66, 2.64), (1.00, 4.00). -/
def levelPairsF : List (Nat × Nat) :=
  [(ffromFrac 0 1, ffromFrac 0 1),
   (ffromFrac 33 100, ffromFrac 132 100),
   (ffromFrac 66 100, ffromFrac 264 100),
   (ffromFrac 1 1, ffromFrac 4 1)]

/-- C4: for stages 1-11 the float stage score of an assessment scoring all of
the stage's processes at one maturity level L is EXACTLY the double denoted
by the decimal literal 4·L (e.g. four Advanced processes give exactly the
double 1.32 — the binary64 sum exhibits no observable drift), and the form
accumulator of `render_process_assessment` agrees; but for stage 12 the same
computation returns 0, because `get_process_data_for_stage(12)` matches no
catalog row ("Audit & Compliance" does not start with the `stage_names`
entry "Audit, Archival & Compliance"), so an assessment scoring 12A-12D all
at Advanced receives stage score 0 rather than 1.32. -/
theorem c4_stage_sum :
    (∀ pr ∈ levelPairsF,
      (∀ s ∈ stagesOneToEleven, stageScoreF (completeAssessmentF pr.1) s = pr.2) ∧
      stageTotalForm (List.replicate 4 pr.1) = pr.2) ∧
    stageScoreF (completeAssessmentF (ffromFrac 33 100)) 12 = 0 ∧
    getProcessDataForStage 12 = [] := by
  decide

/-- Witness for `c4_stage_sum`: stage 7 scored all-Advanced yields exactly
the double 1.32. -/
theorem c4_stage_sum_witness :
    stageScoreF (completeAssessmentF (ffromFrac 33 100)) 7 = ffromFrac 132 100 :=
  ((c4_stage_sum.1 (ffromFrac 33 100, ffromFrac 132 100) (by decide)).1) 7 (by decide)

/-- C6: for the complete assessment scoring all 48 processes at Emerging
(1.00), the per-stage scores are 4.0 for stages 1-11 but 0 for stage 12 (no
catalog row matches the `stage_names` label for stage 12), so the overall
total is exactly the double 44.0 — not the 48.0 the 0-48 range promised by
the claim and by the code's own "48 possible points" comment requires; the
overall average stored for comparison is 44/12 as a double, and the
"Overall" value placed beside the reference entities by the radar site
(line 304: the raw total) differs from the one used by the comparison view
(line 368: the average) on the very same assessment. -/
theorem c6_overall_score :
    overallTotalF (completeAssessmentF (ffromFrac 1 1)) = ffromFrac 44 1 ∧
    ffromFrac 44 1 ≠ ffromFrac 48 1 ∧
    stageScoreF (completeAssessmentF (ffromFrac 1 1)) 12 = 0 ∧
    (∀ s ∈ stagesOneToEleven,
      stageScoreF (completeAssessmentF (ffromFrac 1 1)) s = ffromFrac 4 1) ∧
    overallAvgF (completeAssessmentF (ffromFrac 1 1)) = fdiv (ffromFrac 44 1) (ffromFrac 12 1) ∧
    overallTotalF (completeAssessmentF (ffromFrac 1 1)) ≠
      overallAvgF (completeAssessmentF (ffromFrac 1 1)) := by
  decide

/-- Witness for `c6_overall_score`: stage 5 of the all-Emerging assessment
scores exactly the double 4.0. -/
theorem c6_overall_score_witness :
    stageScoreF (completeAssessmentF (ffromFrac 1 1)) 5 = ffromFrac 4 1 :=
  c6_overall_score.2.2.2.1 5 (by decide)

/-! ### Upstream tracer (`root_cause_analysis.py`) -/

/-- Python `pid in UPSTREAM_DEPENDENCIES`. -/
def dictHasKey (U : PyDict) (k : String) : Bool :=
  (alistKeys U).contains k

/-- Model of `upstream_processes.extend(next_level)` performed through the
alias returned by `get_immediate_upstream_dependencies`: the list stored in
the dictionary grows in place. -/
def dictExtend : List (String × List String) → String → List String → PyDict
  | [], _, _ => []
  | (k0, v) :: rest, k, xs =>
      (if k0 = k then (k0, v ++ xs) else (k0, v)) :: dictExtend rest k xs

/-- The filter `len(p) <= 3 or p in UPSTREAM_DEPENDENCIES` applied by both
`find_root_causes` and `trace_upstream_path` to drop sentinel labels. -/
def realId (U : PyDict) (p : String) : Bool :=
  decide (p.length ≤ 3) || dictHasKey U p

mutual

/-- Fuelled interpreter for `trace_upstream_path(start, depth)`.  `none`
means the computation did not complete within `fuel` loop steps; a fixed
point of `none` across all fuels is a non-terminating run.  The dictionary
is threaded because the function mutates the global table through the alias
(no `.copy()` is taken). -/
def traceAux : Nat → PyDict → String → Nat → Option (PyDict × List String)
  | 0, _, _, _ => none
  | _ + 1, U, _, 0 => some (U, [])
  | _ + 1, U, start, 1 =>
      let ups := (alistGet U start).getD []
      some (U, pydedup (ups.filter (realId U) ++ [start]))
  | fuel + 1, U, start, depth + 2 =>
      match traceLoop fuel U start (depth + 2) 0 [] with
      | none => none
      | some (U1, nl) =>
          if dictHasKey U1 start then
            let U2 := dictExtend U1 start nl
            let ups := (alistGet U2 start).getD []
            some (U2, pydedup (ups.filter (realId U2) ++ [start]))
          else
            some (U1, pydedup (nl.filter (realId U1) ++ [start]))

/-- The `for process in upstream_processes:` loop of `trace_upstream_path`,
with CPython list-iterator semantics: the current length of the (possibly
mutated) stored list is re-read before every step, so elements appended
during iteration are also visited. -/
def traceLoop : Nat → PyDict → String → Nat → Nat → List String →
    Option (PyDict × List String)
  | 0, _, _, _, _, _ => none
  | fuel + 1, U, start, depth, i, nl =>
      let cur := (alistGet U start).getD []
      if h : i < cur.length then
        match traceAux fuel U (cur.get ⟨i, h⟩) (depth - 1) with
        | none => none
        | some (U1, r) => traceLoop fuel U1 start depth (i + 1) (nl ++ r)
      else
        some (U, nl)

end

/-- The result list of a completed fresh-session run of
`trace_upstream_path` (empty when the run does not complete). -/
def traceRun (fuel : Nat) (start : String) (depth : Nat) : List String :=
  match traceAux fuel upstreamDependencies start depth with
  | some (_, l) => l
  | none => []

/-- One level of `find_root_causes`: the union of the upstream lists of the
current frontier. -/
def frcLevel (U : PyDict) (cur : List String) : List String :=
  pydedup ((cur.map (fun p => (alistGet U p).getD [])).flatten)

/-- The bounded frontier iteration of `find_root_causes`. -/
def frcIter (U : PyDict) : Nat → List String → List String → List String
  | 0, causes, _ => causes
  | d + 1, causes, cur =>
      let next := frcLevel U cur
      frcIter U d (pydedup (causes ++ next)) next

/-- Model of `find_root_causes(problem_processes, depth)`: for each problem
id, the set of nodes reached within `depth` backward hops, filtered by
`realId`. -/
def findRootCauses (problems : List String) (depth : Nat) : List (String × List String) :=
  problems.map (fun pid =>
    (pid, (frcIter upstreamDependencies depth [] [pid]).filter (realId upstreamDependencies)))

/-! ### Dictionary lemmas -/

theorem alistKeys_dictExtend (U : List (String × List String)) (k : String)
    (xs : List String) : alistKeys (dictExtend U k xs) = alistKeys U := by
  induction U with
  | nil => rfl
  | cons e rest ih =>
    obtain ⟨k0, v⟩ := e
    by_cases he : k0 = k
    · simp [dictExtend, alistKeys, he] at *
      exact ih
    · simp [dictExtend, alistKeys, he] at *
      exact ih

theorem dictHasKey_congr {U1 U2 : PyDict} (h : alistKeys U1 = alistKeys U2) (k : String) :
    dictHasKey U1 k = dictHasKey U2 k := by
  simp [dictHasKey, h]

theorem realId_congr {U1 U2 : PyDict} (h : alistKeys U1 = alistKeys U2) (p : String) :
    realId U1 p = realId U2 p := by
  simp [realId, dictHasKey_congr h]

theorem alistGet_dictExtend_same (U : List (String × List String)) (k : String)
    (xs : List String) :
    alistGet (dictExtend U k xs) k = (alistGet U k).map (fun l => l ++ xs) := by
  induction U with
  | nil => rfl
  | cons e rest ih =>
    obtain ⟨k0, v⟩ := e
    by_cases he : k0 = k
    · simp only [dictExtend]
      rw [if_pos he]
      simp only [alistGet]
      rw [if_pos he, if_pos he]
      rfl
    · simp only [dictExtend]
      rw [if_neg he]
      simp only [alistGet]
      rw [if_neg he, if_neg he]
      exact ih

theorem alistGet_dictExtend_ne (U : List (String × List String)) {j k : String}
    (h : j ≠ k) (xs : List String) :
    alistGet (dictExtend U j xs) k = alistGet U k := by
  induction U with
  | nil => rfl
  | cons e rest ih =>
    obtain ⟨k0, v⟩ := e
    by_cases he : k0 = j
    · have hk : ¬ k0 = k := fun hh => h (he ▸ hh)
      simp only [dictExtend]
      rw [if_pos he]
      simp only [alistGet]
      rw [if_neg hk, if_neg hk]
      exact ih
    · simp only [dictExtend]
      rw [if_neg he]
      simp only [alistGet]
      by_cases hk : k0 = k
      · rw [if_pos hk, if_pos hk]
      · rw [if_neg hk, if_neg hk]
        exact ih

theorem dictHasKey_alistGet {U : PyDict} {k : String} (h : dictHasKey U k = true) :
    ∃ v, alistGet U k = some v := by
  induction U with
  | nil => simp [dictHasKey, alistKeys] at h
  | cons e rest ih =>
    by_cases he : e.1 = k
    · exact ⟨e.2, by simp [alistGet, he]⟩
    · have hne : (k == e.1) = false := by
        simpa using fun hh => he hh.symm
      have : dictHasKey rest k = true := by
        simpa [dictHasKey, alistKeys, List.contains_cons, hne] using h
      obtain ⟨v, hv⟩ := ih this
      exact ⟨v, by simp [alistGet, he, hv]⟩

/-! ### Interpreter metatheory -/

/-- The interpreter never adds or removes dictionary keys: `extend` through
the alias only grows entry values. -/
theorem trace_keys (fuel : Nat) :
    (∀ U s d r, traceAux fuel U s d = some r → alistKeys r.1 = alistKeys U) ∧
    (∀ U s d i nl r, traceLoop fuel U s d i nl = some r → alistKeys r.1 = alistKeys U) := by
  induction fuel with
  | zero =>
    constructor
    · intro U s d r h
      simp [traceAux] at h
    · intro U s d i nl r h
      simp [traceLoop] at h
  | succ f ih =>
    constructor
    · intro U s d r h
      rcases d with _ | _ | d
      · simp only [traceAux, Option.some.injEq] at h
        subst h
        rfl
      · simp only [traceAux, Option.some.injEq] at h
        subst h
        rfl
      · simp only [traceAux] at h
        cases hL : traceLoop f U s (d + 2) 0 [] with
        | none => rw [hL] at h; exact absurd h (by simp)
        | some p =>
          obtain ⟨U1, nl⟩ := p
          rw [hL] at h
          dsimp only at h
          have hkeys : alistKeys U1 = alistKeys U := ih.2 U s (d + 2) 0 [] (U1, nl) hL
          by_cases hk : dictHasKey U1 s
          · rw [if_pos hk] at h
            simp only [Option.some.injEq] at h
            subst h
            exact (alistKeys_dictExtend U1 s nl).trans hkeys
          · rw [if_neg hk] at h
            simp only [Option.some.injEq] at h
            subst h
            exact hkeys
    · intro U s d i nl r h
      simp only [traceLoop] at h
      split at h
      · rename_i hi
        cases hA : traceAux f U (((alistGet U s).getD []).get ⟨i, hi⟩) (d - 1) with
        | none => rw [hA] at h; exact absurd h (by simp)
        | some p =>
          obtain ⟨U1, rr⟩ := p
          rw [hA] at h
          dsimp only at h
          have k1 : alistKeys U1 = alistKeys U := ih.1 U _ (d - 1) (U1, rr) hA
          have k2 : alistKeys r.1 = alistKeys U1 := ih.2 U1 s d (i + 1) (nl ++ rr) r h
          exact k2.trans k1
      · simp only [Option.some.injEq] at h
        subst h
        rfl

/-- Shape of every completed run: at depth 0 the result is empty, otherwise
it is the deduplication of a `realId`-filtered list with the start id
appended (`list(set(upstream_processes + [start_process]))` in the source). -/
theorem traceAux_shape (fuel : Nat) (U : PyDict) (s : String) (d : Nat)
    (U2 : PyDict) (l : List String)
    (h : traceAux fuel U s d = some (U2, l)) :
    (d = 0 ∧ l = []) ∨
      ∃ xs : List String, l = pydedup (List.filter (realId U2) xs ++ [s]) := by
  rcases fuel with _ | f
  · simp [traceAux] at h
  rcases d with _ | _ | d
  · simp only [traceAux, Option.some.injEq, Prod.mk.injEq] at h
    exact Or.inl ⟨rfl, h.2.symm⟩
  · simp only [traceAux, Option.some.injEq, Prod.mk.injEq] at h
    obtain ⟨hU, hl⟩ := h
    subst hU
    exact Or.inr ⟨_, hl.symm⟩
  · simp only [traceAux] at h
    cases hL : traceLoop f U s (d + 2) 0 [] with
    | none => rw [hL] at h; exact absurd h (by simp)
    | some p =>
      obtain ⟨U1, nl⟩ := p
      rw [hL] at h
      dsimp only at h
      by_cases hk : dictHasKey U1 s
      · rw [if_pos hk] at h
        simp only [Option.some.injEq, Prod.mk.injEq] at h
        obtain ⟨hU, hl⟩ := h
        subst hU
        exact Or.inr ⟨_, hl.symm⟩
      · rw [if_neg hk] at h
        simp only [Option.some.injEq, Prod.mk.injEq] at h
        obtain ⟨hU, hl⟩ := h
        subst hU
        exact Or.inr ⟨_, hl.symm⟩

/-- A depth-1 call is pure (the only mutation happens behind the `depth > 1`
guard) and its result contains the start id. -/
theorem traceAux_depth_one (fuel : Nat) (U : PyDict) (s : String)
    (U2 : PyDict) (l : List String)
    (h : traceAux fuel U s 1 = some (U2, l)) :
    U2 = U ∧ s ∈ l := by
  rcases fuel with _ | f
  · simp [traceAux] at h
  simp only [traceAux, Option.some.injEq, Prod.mk.injEq] at h
  obtain ⟨hU, hl⟩ := h
  refine ⟨hU.symm, ?_⟩
  subst hl
  exact (mem_pydedup _ _).mpr (List.mem_append_right _ (List.mem_singleton_self _))

/-- The loop of a depth-2 call: its sub-calls all run at depth 1 and are
pure, so the dictionary is unchanged, the accumulator only grows, and every
stored-list element from position `i` on ends up in the accumulator. -/
theorem traceLoop_depth_two (fuel : Nat) :
    ∀ U s i nl Um nl2, traceLoop fuel U s 2 i nl = some (Um, nl2) →
      Um = U ∧ nl ⊆ nl2 ∧ ((alistGet U s).getD []).drop i ⊆ nl2 := by
  induction fuel with
  | zero =>
    intro U s i nl Um nl2 h
    simp [traceLoop] at h
  | succ f ih =>
    intro U s i nl Um nl2 h
    simp only [traceLoop] at h
    split at h
    · rename_i hi
      cases hA : traceAux f U (((alistGet U s).getD []).get ⟨i, hi⟩) (2 - 1) with
      | none => rw [hA] at h; exact absurd h (by simp)
      | some p =>
        obtain ⟨U1, rr⟩ := p
        rw [hA] at h
        dsimp only at h
        obtain ⟨hU1, hpmem⟩ :=
          traceAux_depth_one f U (((alistGet U s).getD []).get ⟨i, hi⟩) U1 rr hA
        rw [hU1] at h
        obtain ⟨hUm, hsub, hdrop⟩ := ih U s (i + 1) (nl ++ rr) Um nl2 h
        refine ⟨hUm, (List.subset_append_left nl rr).trans hsub, ?_⟩
        rw [List.drop_eq_getElem_cons hi]
        intro x hx
        rcases List.mem_cons.mp hx with hx | hx
        · subst hx
          exact hsub (List.mem_append_right nl (by simpa using hpmem))
        · exact hdrop hx
    · rename_i hi
      simp only [Option.some.injEq, Prod.mk.injEq] at h
      obtain ⟨hU, hnl⟩ := h
      subst hU
      subst hnl
      refine ⟨rfl, fun x hx => hx, ?_⟩
      rw [List.drop_eq_nil_of_le (Nat.le_of_not_lt hi)]
      exact fun x hx => absurd hx (List.not_mem_nil x)

/-- A completed depth-2 call on a key of the dictionary extends exactly that
key's stored list, by a block that contains every element the list held when
the call started. -/
theorem traceAux_depth_two (fuel : Nat) (U : PyDict) (s : String)
    (U2 : PyDict) (l : List String)
    (h : traceAux fuel U s 2 = some (U2, l)) (hk : dictHasKey U s = true) :
    ∃ ext : List String, U2 = dictExtend U s ext ∧ (alistGet U s).getD [] ⊆ ext := by
  rcases fuel with _ | f
  · simp [traceAux] at h
  simp only [traceAux] at h
  cases hL : traceLoop f U s 2 0 [] with
  | none => rw [hL] at h; exact absurd h (by simp)
  | some p =>
    obtain ⟨U1, nl⟩ := p
    rw [hL] at h
    dsimp only at h
    obtain ⟨hU1, _, hdrop⟩ := traceLoop_depth_two f U s 0 [] U1 nl hL
    rw [hU1] at h
    rw [if_pos hk] at h
    simp only [Option.some.injEq, Prod.mk.injEq] at h
    exact ⟨nl, h.1.symm, by simpa using hdrop⟩

/-- A completed depth-2 call started at `p` leaves every other key's stored
list untouched. -/
theorem traceAux_depth_two_ne (fuel : Nat) (U : PyDict) (p t : String)
    (U2 : PyDict) (l : List String)
    (h : traceAux fuel U p 2 = some (U2, l)) (hne : p ≠ t) :
    alistGet U2 t = alistGet U t := by
  rcases fuel with _ | f
  · simp [traceAux] at h
  simp only [traceAux] at h
  cases hL : traceLoop f U p 2 0 [] with
  | none => rw [hL] at h; exact absurd h (by simp)
  | some q =>
    obtain ⟨U1, nl⟩ := q
    rw [hL] at h
    dsimp only at h
    obtain ⟨hU1, _, _⟩ := traceLoop_depth_two f U p 0 [] U1 nl hL
    rw [hU1] at h
    by_cases hk : dictHasKey U p
    · rw [if_pos hk] at h
      simp only [Option.some.injEq, Prod.mk.injEq] at h
      rw [← h.1, alistGet_dictExtend_ne U hne]
    · rw [if_neg hk] at h
      simp only [Option.some.injEq, Prod.mk.injEq] at h
      rw [← h.1]

/-- The depth-3 loop started at "7A" never completes, for any fuel: whenever
the iterator reaches a "7A" element, the recursive depth-2 call extends the
very list being iterated (the alias into the dictionary) by a block that
contains "7A" again, so a "7A" element always remains ahead of the
iterator. -/
theorem traceLoop_seven_none (fuel : Nat) :
    ∀ U i nl, dictHasKey U "7A" = true →
      "7A" ∈ ((alistGet U "7A").getD []).drop i →
      traceLoop fuel U "7A" 3 i nl = none := by
  induction fuel with
  | zero =>
    intro U i nl _ _
    rfl
  | succ f ih =>
    intro U i nl hk hmem
    have hi : i < ((alistGet U "7A").getD []).length := by
      by_contra hge
      rw [List.drop_eq_nil_of_le (Nat.le_of_not_lt hge)] at hmem
      exact absurd hmem (List.not_mem_nil _)
    simp only [traceLoop]
    rw [dif_pos hi]
    cases hA : traceAux f U (((alistGet U "7A").getD []).get ⟨i, hi⟩) (3 - 1) with
    | none => rfl
    | some q =>
      obtain ⟨U1, rr⟩ := q
      dsimp only
      by_cases hp : ((alistGet U "7A").getD []).get ⟨i, hi⟩ = "7A"
      · rw [hp] at hA
        obtain ⟨ext, hU1, hsub⟩ := traceAux_depth_two f U "7A" U1 rr hA hk
        obtain ⟨v, hv⟩ := dictHasKey_alistGet hk
        have hk1 : dictHasKey U1 "7A" = true := by
          rw [hU1, dictHasKey_congr (alistKeys_dictExtend U "7A" ext)]
          exact hk
        have hcur1 : (alistGet U1 "7A").getD [] = v ++ ext := by
          rw [hU1, alistGet_dictExtend_same, hv]
          rfl
        have hvlen : i + 1 ≤ v.length := by
          have : ((alistGet U "7A").getD []).length = v.length := by rw [hv]; rfl
          omega
        apply ih U1 (i + 1) (nl ++ rr) hk1
        rw [hcur1, List.drop_append_of_le_length hvlen]
        refine List.mem_append_right _ ?_
        have h7 : "7A" ∈ (alistGet U "7A").getD [] :=
          List.drop_subset _ _ hmem
        exact hsub h7
      · have hGet : alistGet U1 "7A" = alistGet U "7A" :=
          traceAux_depth_two_ne f U _ "7A" U1 rr hA hp
        have hkeys : alistKeys U1 = alistKeys U :=
          (trace_keys f).1 U _ (3 - 1) (U1, rr) hA
        have hk1 : dictHasKey U1 "7A" = true := by
          rw [dictHasKey_congr hkeys]
          exact hk
        apply ih U1 (i + 1) (nl ++ rr) hk1
        rw [hGet]
        rw [List.drop_eq_getElem_cons hi] at hmem
        rcases List.mem_cons.mp hmem with hx | hx
        · exact absurd (by simpa using hx.symm) hp
        · exact hx

/-- C2: `trace_upstream_path("7A", depth=3)` NEVER completes — the fuelled
interpreter returns `none` for every fuel bound, because
`get_immediate_upstream_dependencies` hands out the list object stored in
the global table and `extend` grows it in place while the depth-3 loop is
iterating it, forever re-supplying "7A"; by contrast the set-based
`find_root_causes` traversal on the same input terminates with the finite
5-element cause set. -/
theorem c2_trace_divergence :
    (∀ fuel, traceAux fuel upstreamDependencies "7A" 3 = none) ∧
    ((alistGet (findRootCauses ["7A"] 3) "7A").getD []).length = 5 := by
  constructor
  · intro fuel
    rcases fuel with _ | f
    · rfl
    · have hnone : traceLoop f upstreamDependencies "7A" 3 0 [] = none := by
        apply traceLoop_seven_none f upstreamDependencies 0 [] (by decide)
        decide
      simp only [traceAux]
      rw [show (1 : Nat) + 2 = 3 from rfl, hnone]
  · decide

/-- C7 counterexample: a terminating fresh-session trace of "1B" at depth 1
completes and CONTAINS the start node "1B" (the source appends
`[start_process]` to the result), and `find_root_causes` maps "7A" to a
cause set containing "7A" itself; so the start node is not excluded from its
own upstream result. -/
theorem c7_counterexample :
    traceAux 10 upstreamDependencies "1B" 1 =
      some (upstreamDependencies, ["1A", "1B"]) ∧
    "1B" ∈ traceRun 10 "1B" 1 ∧
    "7A" ∈ traceRun 20 "7A" 2 ∧
    "7A" ∈ (alistGet (findRootCauses ["7A"] 2) "7A").getD [] := by
  refine ⟨by decide, by decide, by decide, by decide⟩

/-- C7 (amended): for every dictionary state, start id and depth of at least
1, every COMPLETED run of the tracer returns a set that includes the start
node (the source deliberately appends it); a depth-0 call returns the empty
list; exclusion of the start node would have to be done by the caller, as
`render_root_cause_analysis` indeed does. -/
theorem c7_amended (fuel : Nat) (U : PyDict) (s : String) (d : Nat)
    (U2 : PyDict) (l : List String)
    (h : traceAux fuel U s d = some (U2, l)) (hd : 1 ≤ d) : s ∈ l := by
  rcases traceAux_shape fuel U s d U2 l h with ⟨hd0, _⟩ | ⟨xs, hl⟩
  · omega
  · subst hl
    exact (mem_pydedup _ _).mpr (List.mem_append_right _ (List.mem_singleton_self _))

/-- Witness for `c7_amended` at the completed run of "1B" at depth 1. -/
theorem c7_amended_witness : "1B" ∈ ["1A", "1B"] :=
  c7_amended 10 upstreamDependencies "1B" 1 upstreamDependencies ["1A", "1B"]
    (by decide) (by decide)

/-- Lookup in the association list produced by `find_root_causes` yields the
filtered cause set of the looked-up problem id. -/
theorem alistGet_findRootCauses (ps : List String) (d : Nat) (k : String)
    (cs : List String) (h : alistGet (findRootCauses ps d) k = some cs) :
    cs = (frcIter upstreamDependencies d [] [k]).filter (realId upstreamDependencies) := by
  induction ps with
  | nil => simp [findRootCauses, alistGet] at h
  | cons p rest ih =>
    simp only [findRootCauses, List.map_cons, alistGet] at h
    by_cases hp : p = k
    · rw [if_pos hp] at h
      simp only [Option.some.injEq] at h
      rw [← h, hp]
    · rw [if_neg hp] at h
      exact ih h

/-- C9: every node id returned by `find_root_causes`, and every node id in a
completed `trace_upstream_path` run whose start satisfies the filter, passes
`len(c) <= 3 or c in UPSTREAM_DEPENDENCIES`; and none of the sentinel
upstream labels of stages 1, 11 and 12 passes that filter, so sentinels
never appear in any root-cause or upstream-path result. -/
theorem c9_no_sentinels :
    (∀ ps d pid cs, alistGet (findRootCauses ps d) pid = some cs →
      ∀ c ∈ cs, realId upstreamDependencies c = true) ∧
    (∀ fuel s d U2 l, traceAux fuel upstreamDependencies s d = some (U2, l) →
      realId upstreamDependencies s = true →
      ∀ c ∈ l, realId upstreamDependencies c = true) ∧
    realId upstreamDependencies "External trigger (user / API)" = false ∧
    realId upstreamDependencies "Events from Stages 1-10" = false ∧
    realId upstreamDependencies "Aggregated Stage 1-10 data" = false ∧
    realId upstreamDependencies "Status events Stage 1-10" = false ∧
    realId upstreamDependencies "Logs from Stages 1-11" = false := by
  refine ⟨?_, ?_, by decide, by decide, by decide, by decide, by decide⟩
  · intro ps d pid cs h c hc
    rw [alistGet_findRootCauses ps d pid cs h] at hc
    exact (List.mem_filter.mp hc).2
  · intro fuel s d U2 l h hs c hc
    rcases traceAux_shape fuel upstreamDependencies s d U2 l h with ⟨_, hl⟩ | ⟨xs, hl⟩
    · subst hl
      exact absurd hc (List.not_mem_nil c)
    · subst hl
      have hkeys : alistKeys U2 = alistKeys upstreamDependencies :=
        (trace_keys fuel).1 upstreamDependencies s d (U2, _) h
      rcases List.mem_append.mp ((mem_pydedup _ _).mp hc) with hc | hc
      · rw [← realId_congr hkeys c]
        exact (List.mem_filter.mp hc).2
      · rw [List.mem_singleton.mp hc]
        exact hs

/-- Witness for `c9_no_sentinels`: the cause set of "2A" at depth 2 and the
trace of "1B" at depth 1 both consist of filter-passing ids. -/
theorem c9_no_sentinels_witness :
    realId upstreamDependencies "1D" = true ∧ realId upstreamDependencies "1A" = true :=
  ⟨c9_no_sentinels.1 ["2A"] 2 "2A" ["1A", "1D", "1C"] (by decide) "1D" (by decide),
   c9_no_sentinels.2.1 10 "1B" 1 upstreamDependencies ["1A", "1B"] (by decide) (by decide)
     "1A" (by decide)⟩

/-! ### Outcome ranking (`get_outcome_process_details` and the score sort of
`render_outcome_analysis`) -/

/-- A row of the outcome detail table: (ID, Question, Score). -/
def OutcomeRow : Type := String × String × ℚ

/-- Stable insertion into an already-processed list: the new element is
placed before the first strictly greater element, hence after every equal
one — the insertion-sort model of Python's stable ascending `sorted`. -/
def insStable {α : Type} (lt : α → α → Prop) [DecidableRel lt] (x : α) :
    List α → List α
  | [] => [x]
  | y :: ys => if lt x y then x :: y :: ys else y :: insStable lt x ys

/-- Model of Python `sorted` (ascending, stable) with strict comparison
`lt`. -/
def pySorted {α : Type} (lt : α → α → Prop) [DecidableRel lt] (l : List α) :
    List α :=
  l.foldl (fun acc x => insStable lt x acc) []

instance decRowIdLt : DecidableRel (fun a b : OutcomeRow => a.1 < b.1) :=
  fun a b => inferInstanceAs (Decidable (a.1 < b.1))

instance decRowScoreLt : DecidableRel (fun a b : OutcomeRow => a.2.2 < b.2.2) :=
  fun a b => inferInstanceAs (Decidable (a.2.2 < b.2.2))

/-- Round half to even, the rounding of Python's builtin `round`. -/
def roundHalfEvenInt (q : ℚ) : ℤ :=
  let n := ⌊q⌋
  let fr := q - n
  if fr < 1/2 then n
  else if 1/2 < fr then n + 1
  else if n % 2 = 0 then n else n + 1

/-- Model of Python `round(x, 2)`. -/
def pyRound2 (q : ℚ) : ℚ :=
  (roundHalfEvenInt (q * 100) : ℚ) / 100

/-- Model of `get_outcome_process_details`: one row per member id, with the
score defaulted to 0 for absent members, sorted ascending by ID. -/
def getOutcomeProcessDetails (pv : ProcessValues) (questions : String → Option String)
    (outcome : String) : List OutcomeRow :=
  pySorted (fun a b : OutcomeRow => a.1 < b.1)
    ((getProcessesForOutcome outcome).map
      (fun pid => (pid, (questions pid).getD "Unknown", (pv pid).getD 0)))

/-- Model of the ranking pipeline of `render_outcome_analysis` (lines
793-798): scores rounded to 2 decimals, then a stable ascending sort by
score over the ID-sorted detail rows. -/
def rankProcessesForOutcome (pv : ProcessValues) (questions : String → Option String)
    (outcome : String) : List OutcomeRow :=
  pySorted (fun a b : OutcomeRow => a.2.2 < b.2.2)
    ((getOutcomeProcessDetails pv questions outcome).map
      (fun x => (x.1, x.2.1, pyRound2 x.2.2)))

/-- The ranking order the claim asserts: ascending by (rounded) score, ties
broken by process id ascending. -/
def rankLex (a b : OutcomeRow) : Prop :=
  a.2.2 < b.2.2 ∨ (a.2.2 = b.2.2 ∧ a.1 < b.1)

theorem insStable_perm {α : Type} (lt : α → α → Prop) [DecidableRel lt]
    (x : α) (l : List α) : List.Perm (insStable lt x l) (x :: l) := by
  induction l with
  | nil => exact List.Perm.refl _
  | cons y ys ih =>
    by_cases h : lt x y
    · simp only [insStable, if_pos h]
      exact List.Perm.refl _
    · simp only [insStable, if_neg h]
      exact (ih.cons y).trans (List.Perm.swap x y ys)

theorem mem_insStable {α : Type} (lt : α → α → Prop) [DecidableRel lt]
    (x z : α) (l : List α) : z ∈ insStable lt x l ↔ z = x ∨ z ∈ l := by
  rw [(insStable_perm lt x l).mem_iff]
  simp

theorem pySorted_foldl_perm {α : Type} (lt : α → α → Prop) [DecidableRel lt]
    (l : List α) : ∀ acc : List α,
      List.Perm (l.foldl (fun acc x => insStable lt x acc) acc) (l ++ acc) := by
  induction l with
  | nil => intro acc; exact List.Perm.refl _
  | cons x xs ih =>
    intro acc
    exact (ih (insStable lt x acc)).trans
      (((insStable_perm lt x acc).append_left xs).trans List.perm_middle)

theorem pySorted_perm {α : Type} (lt : α → α → Prop) [DecidableRel lt]
    (l : List α) : List.Perm (pySorted lt l) l :=
  (pySorted_foldl_perm lt l []).trans (by simp)

theorem insStable_key_pairwise {α : Type} {κ : Type} [LinearOrder κ]
    (key : α → κ) [DecidableRel (fun a b : α => key a < key b)] (x : α)
    (l : List α) (h : l.Pairwise (fun a b => key a ≤ key b)) :
    (insStable (fun a b => key a < key b) x l).Pairwise (fun a b => key a ≤ key b) := by
  induction l with
  | nil => simp [insStable]
  | cons y ys ih =>
    rw [List.pairwise_cons] at h
    obtain ⟨hy, hys⟩ := h
    by_cases hlt : key x < key y
    · simp only [insStable, if_pos hlt]
      refine List.Pairwise.cons ?_ (List.Pairwise.cons hy hys)
      intro w hw
      rcases List.mem_cons.mp hw with hw | hw
      · exact hw ▸ hlt.le
      · exact hlt.le.trans (hy w hw)
    · simp only [insStable, if_neg hlt]
      refine List.Pairwise.cons ?_ (ih hys)
      intro w hw
      rcases (mem_insStable _ x w ys).mp hw with hw | hw
      · exact hw ▸ le_of_not_lt hlt
      · exact hy w hw

theorem pySorted_key_pairwise {α : Type} {κ : Type} [LinearOrder κ]
    (key : α → κ) [DecidableRel (fun a b : α => key a < key b)] (l : List α) :
    (pySorted (fun a b : α => key a < key b) l).Pairwise (fun a b => key a ≤ key b) := by
  suffices h : ∀ acc : List α, acc.Pairwise (fun a b => key a ≤ key b) →
      (l.foldl (fun acc x => insStable (fun a b : α => key a < key b) x acc) acc).Pairwise
        (fun a b => key a ≤ key b) by
    exact h [] (List.Pairwise.nil)
  induction l with
  | nil => intro acc hacc; exact hacc
  | cons x xs ih =>
    intro acc hacc
    exact ih _ (insStable_key_pairwise key x acc hacc)

/-- The lex order implies the score order, weakly. -/
theorem rankLex_score_le {a b : OutcomeRow} (h : rankLex a b) : a.2.2 ≤ b.2.2 := by
  rcases h with h | ⟨h, _⟩
  · exact h.le
  · exact h.le

/-- Inserting a row whose id is strictly greater than every id already
present keeps the accumulator sorted in the (score, id) lex order: the row
goes after every equal score, where its larger id is exactly what the lex
order requires. -/
theorem insStable_rankLex (x : OutcomeRow) (l : List OutcomeRow)
    (hl : l.Pairwise rankLex) (hid : ∀ y ∈ l, y.1 < x.1) :
    (insStable (fun a b : OutcomeRow => a.2.2 < b.2.2) x l).Pairwise rankLex := by
  induction l with
  | nil => simp [insStable]
  | cons y ys ih =>
    rw [List.pairwise_cons] at hl
    obtain ⟨hy, hys⟩ := hl
    by_cases hlt : x.2.2 < y.2.2
    · simp only [insStable, if_pos hlt]
      refine List.Pairwise.cons ?_ (List.Pairwise.cons hy hys)
      intro w hw
      rcases List.mem_cons.mp hw with hw | hw
      · exact Or.inl (hw ▸ hlt)
      · exact Or.inl (lt_of_lt_of_le hlt (rankLex_score_le (hy w hw)))
    · simp only [insStable, if_neg hlt]
      refine List.Pairwise.cons ?_ (ih hys (fun z hz => hid z (List.mem_cons_of_mem y hz)))
      intro w hw
      rcases (mem_insStable _ x w ys).mp hw with hw | hw
      · subst hw
        rcases lt_or_eq_of_le (le_of_not_lt hlt) with hsc | hsc
        · exact Or.inl hsc
        · exact Or.inr ⟨hsc, hid y (List.mem_cons_self y ys)⟩
      · exact hy w hw

/-- Sorting by score a list whose ids are strictly ascending yields a list
sorted in the (score, id) lex order. -/
theorem pySorted_rankLex (l : List OutcomeRow)
    (h : l.Pairwise (fun a b => a.1 < b.1)) :
    (pySorted (fun a b : OutcomeRow => a.2.2 < b.2.2) l).Pairwise rankLex := by
  suffices haux : ∀ acc : List OutcomeRow, acc.Pairwise rankLex →
      (∀ y ∈ acc, ∀ x ∈ l, y.1 < x.1) →
      (l.foldl (fun acc x => insStable (fun a b : OutcomeRow => a.2.2 < b.2.2) x acc)
        acc).Pairwise rankLex by
    exact haux [] List.Pairwise.nil (fun y hy => absurd hy (List.not_mem_nil y))
  induction l with
  | nil => intro acc hacc _; exact hacc
  | cons x xs ih =>
    rw [List.pairwise_cons] at h
    obtain ⟨hx, hxs⟩ := h
    intro acc hacc hcross
    refine ih hxs _ (insStable_rankLex x acc hacc
      (fun y hy => hcross y hy x (List.mem_cons_self x xs))) ?_
    intro y hy z hz
    rcases (mem_insStable _ x y acc).mp hy with hy | hy
    · exact hy ▸ hx z hz
    · exact hcross y hy z (List.mem_cons_of_mem x hz)

theorem alistGet_mem_values {β : Type} (m : List (String × β)) (k : String)
    (v : β) (h : alistGet m k = some v) : v ∈ m.map Prod.snd := by
  induction m with
  | nil => simp [alistGet] at h
  | cons e rest ih =>
    rw [alistGet] at h
    by_cases he : e.1 = k
    · rw [if_pos he] at h
      simp only [Option.some.injEq] at h
      simp [← h]
    · rw [if_neg he] at h
      simp [ih h]

/-- Every registered outcome's member list is duplicate-free (and the empty
list of an unregistered outcome trivially is). -/
theorem membersNodup (outcome : String) : (getProcessesForOutcome outcome).Nodup := by
  unfold getProcessesForOutcome
  cases h : alistGet businessOutcomeMap outcome with
  | none => simp
  | some l =>
    have hv : ∀ v ∈ businessOutcomeMap.map Prod.snd, v.Nodup := by decide
    simpa using hv l (alistGet_mem_values businessOutcomeMap outcome l h)

/-- C8: for every assessment, every question table and every outcome, the
ranking produced by `get_outcome_process_details` followed by the
round-and-sort of `render_outcome_analysis` is sorted ascending by rounded
score with ties broken by process id ascending — the double sort (stable by
ID first, then stable by score) realises exactly the deterministic
(score, id) lexicographic order. -/
theorem c8_rank_deterministic (pv : ProcessValues) (questions : String → Option String)
    (outcome : String) :
    (rankProcessesForOutcome pv questions outcome).Pairwise rankLex := by
  have hnodup : (getProcessesForOutcome outcome).Nodup := membersNodup outcome
  have hne0 : ((getProcessesForOutcome outcome).map
      (fun pid => (pid, (questions pid).getD "Unknown", (pv pid).getD 0))).Pairwise
      (fun a b : OutcomeRow => a.1 ≠ b.1) :=
    List.Pairwise.map _ (fun a b hab => hab) hnodup
  have hperm := pySorted_perm (fun a b : OutcomeRow => a.1 < b.1)
    ((getProcessesForOutcome outcome).map
      (fun pid => (pid, (questions pid).getD "Unknown", (pv pid).getD 0)))
  have hne : (getOutcomeProcessDetails pv questions outcome).Pairwise
      (fun a b : OutcomeRow => a.1 ≠ b.1) :=
    (hperm.pairwise_iff (fun hab => Ne.symm hab)).mpr hne0
  have hle : (getOutcomeProcessDetails pv questions outcome).Pairwise
      (fun a b : OutcomeRow => a.1 ≤ b.1) :=
    pySorted_key_pairwise (fun x : OutcomeRow => x.1) _
  have hlt : (getOutcomeProcessDetails pv questions outcome).Pairwise
      (fun a b : OutcomeRow => a.1 < b.1) :=
    (hle.and hne).imp (fun h => lt_of_le_of_ne h.1 h.2)
  have hmap : ((getOutcomeProcessDetails pv questions outcome).map
      (fun x : OutcomeRow => (x.1, x.2.1, pyRound2 x.2.2))).Pairwise
      (fun a b : OutcomeRow => a.1 < b.1) :=
    hlt.map _ (fun a b hab => hab)
  exact pySorted_rankLex _ hmap
